import Mathlib

/-
Verification of the WSI (white-light scanning interferometry) reconstruction
core: the CPS (coherence peak sensing) algorithm and the FFT-phase algorithm
of `src/processing.py`, together with the second FFT-phase implementation of
`src/fft_phase_extraction.py`.

Arrays are modelled as total functions from natural-number indices, with the
relevant sizes carried separately (`n_z`, `n_y`, `n_x`).  Real (float) values
are modelled as exact reals.  The scipy kernels used by the source
(`scipy.fft.fft/ifft/fftfreq`, `scipy.signal.hilbert`,
`scipy.ndimage.gaussian_filter1d`, `np.interp`, `np.argmax`) are embedded by
their mathematical definitions below.  The per-pixel double loops are embedded
as folds over the row-major pixel list, threading a state that carries the
input arrays (read-only) and the two freshly allocated output maps.
-/

noncomputable section

open Finset

/-- 3D intensity stack, indexed (z, y, x) as in the source. -/
abbrev Stack := ℕ → ℕ → ℕ → ℝ

/-- 2D output map, keyed by a (row, column) pixel pair. -/
abbrev Map2 := ℕ × ℕ → ℝ

/-- Error vocabulary of the spec for the two fatal failures. -/
inductive ProcError where
  | insufficientSamples
  | carrierNotFound

/-- Python `int()` applied to a float: truncation toward zero. -/
def pyInt (x : ℝ) : ℤ := if x < 0 then ⌈x⌉ else ⌊x⌋

/-- `scipy.fft.fft` along one axis: X[k] = Σ_j x[j]·exp(-2πi·j·k/n). -/
def fft (n : ℕ) (x : ℕ → ℂ) (k : ℕ) : ℂ :=
  ∑ j ∈ Finset.range n,
    x j * Complex.exp (-(2 * (Real.pi : ℂ) * Complex.I) * ((j : ℂ) * (k : ℂ)) / (n : ℂ))

/-- `scipy.fft.ifft`: x[k] = (Σ_j X[j]·exp(2πi·j·k/n))/n. -/
def ifft (n : ℕ) (x : ℕ → ℂ) (k : ℕ) : ℂ :=
  (∑ j ∈ Finset.range n,
    x j * Complex.exp ((2 * (Real.pi : ℂ) * Complex.I) * ((j : ℂ) * (k : ℂ)) / (n : ℂ))) / (n : ℂ)

/-- `scipy.fft.fftfreq(n, d)`: bin k holds k/(n·d) when 2k &lt; n and
(k-n)/(n·d) otherwise. -/
def fftfreq (n : ℕ) (d : ℝ) (k : ℕ) : ℝ :=
  (if 2 * k < n then (k : ℝ) else (k : ℝ) - (n : ℝ)) / ((n : ℝ) * d)

/-- Frequency-domain mask of `scipy.signal.hilbert`: weight 1 on the zero bin
(and the Nyquist bin for even n), 2 on positive-frequency bins, 0 on
negative-frequency bins. -/
def hilbert_mask (n k : ℕ) : ℝ :=
  if k = 0 then 1 else if 2 * k < n then 2 else if 2 * k = n then 1 else 0

/-- `scipy.signal.hilbert` along the scan axis: analytic signal via FFT,
mask, inverse FFT. -/
def hilbert (n : ℕ) (x : ℕ → ℝ) (k : ℕ) : ℂ :=
  ifft n (fun j => (hilbert_mask n j : ℂ) * fft n (fun t => (x t : ℂ)) j) k

/-- Kernel radius of `scipy.ndimage.gaussian_filter1d` (truncate = 4.0):
`int(4.0 * sigma + 0.5)`. -/
def gauss_radius (σ : ℝ) : ℕ := (pyInt (4 * σ + 1 / 2)).toNat

/-- Unnormalised Gaussian kernel weight exp(-t²/(2σ²)). -/
def gauss_weight (σ : ℝ) (t : ℤ) : ℝ := Real.exp (-((t : ℝ) ^ 2) / (2 * σ ^ 2))

/-- Index clamping of the `mode='nearest'` boundary policy: edge replication. -/
def clamp_idx (n : ℕ) (i : ℤ) : ℕ := (max 0 (min i ((n : ℤ) - 1))).toNat

/-- `scipy.ndimage.gaussian_filter1d(x, sigma, mode='nearest')` at index k:
normalised Gaussian-weighted sum of the edge-replicated sequence. -/
def gaussian_filter1d (n : ℕ) (σ : ℝ) (x : ℕ → ℝ) (k : ℕ) : ℝ :=
  (∑ t ∈ Finset.range (2 * gauss_radius σ + 1),
      gauss_weight σ ((t : ℤ) - (gauss_radius σ : ℤ)) *
        x (clamp_idx n ((k : ℤ) + ((t : ℤ) - (gauss_radius σ : ℤ))))) /
    (∑ t ∈ Finset.range (2 * gauss_radius σ + 1),
      gauss_weight σ ((t : ℤ) - (gauss_radius σ : ℤ)))

/-- `_parabolic_subpixel` of `src/processing.py` lines 13-26 (the same
function appears verbatim in `src/fft_phase_extraction.py` lines 6-14):
three-point parabolic peak interpolation with a 1e-12 degeneracy fallback. -/
def parabolic_subpixel (vm1 v0 vp1 : ℝ) : ℝ :=
  if |vm1 - 2 * v0 + vp1| < 1 / 10 ^ 12 then 0
  else 0.5 * (vm1 - vp1) / (vm1 - 2 * v0 + vp1)

/-- `np.interp(t, np.arange(n), f)`: clamped piecewise-linear interpolation
of the samples f(0), ..., f(n-1) at the fractional index t. -/
def np_interp (n : ℕ) (f : ℕ → ℝ) (t : ℝ) : ℝ :=
  if t ≤ 0 then f 0
  else if (n : ℝ) - 1 ≤ t then f (n - 1)
  else f (⌊t⌋).toNat + (t - ((⌊t⌋).toNat : ℝ)) * (f ((⌊t⌋).toNat + 1) - f (⌊t⌋).toNat)

/-- Fold underlying `np.argmax`: scan a candidate list, replacing the current
best index only on a strictly larger value (first occurrence wins on ties). -/
def argmax_fold (f : ℕ → ℝ) (b : ℕ) (l : List ℕ) : ℕ :=
  l.foldl (fun a j => if f a < f j then j else a) b

/-- `np.argmax` over indices 0, ..., n-1. -/
def np_argmax (n : ℕ) (f : ℕ → ℝ) : ℕ := argmax_fold f 0 (List.range n)

/-- State threaded through a per-pixel reconstruction loop: the caller's input
arrays (stack, scan axis) and the two output maps allocated by `np.zeros` at
the start of the call. -/
structure LoopState where
  stack : Stack
  z : ℕ → ℝ
  H : Map2
  C : Map2

attribute [ext] LoopState

/-- One iteration of a per-pixel loop: write the two per-pixel results into
the output maps at pixel p.  The input arrays are only read, never written. -/
def write_step (g : (ℕ → ℝ) → ℕ × ℕ → ℝ × ℝ) (st : LoopState) (p : ℕ × ℕ) : LoopState :=
  { st with
      H := Function.update st.H p (g st.z p).1
      C := Function.update st.C p (g st.z p).2 }

/-- Row-major pixel traversal order of the nested `for yi: for xi:` loops. -/
def pix_list (n_y n_x : ℕ) : List (ℕ × ℕ) :=
  (List.range n_y).flatMap (fun yi => (List.range n_x).map (fun xi => (yi, xi)))

/-- Envelope of `process_cps_subpixel` (processing.py lines 49-50): magnitude
of the Hilbert analytic signal along the scan axis. -/
def cps_envelope (n_z : ℕ) (stack : Stack) (k yi xi : ℕ) : ℝ :=
  Complex.abs (hilbert n_z (fun j => stack j yi xi) k)

/-- Smoothed envelope (processing.py line 53). -/
def cps_envelope_smooth (n_z : ℕ) (σ : ℝ) (stack : Stack) (k yi xi : ℕ) : ℝ :=
  gaussian_filter1d n_z σ (fun j => cps_envelope n_z stack j yi xi) k

/-- Integer peak position `np.argmax(envelope_smooth, axis=0)`
(processing.py line 56). -/
def cps_peak (n_z : ℕ) (σ : ℝ) (stack : Stack) (yi xi : ℕ) : ℕ :=
  np_argmax n_z (fun k => cps_envelope_smooth n_z σ stack k yi xi)

/-- Height written by one iteration of the CPS loop (processing.py lines
63-81): scan position at the peak index in the boundary case, otherwise the
scan axis linearly interpolated at the subpixel-refined index. -/
def cps_pixel_height (n_z : ℕ) (σ : ℝ) (stack : Stack) (zf : ℕ → ℝ) (yi xi : ℕ) : ℝ :=
  if cps_peak n_z σ stack yi xi ≤ 0 ∨ n_z - 1 ≤ cps_peak n_z σ stack yi xi then
    zf (cps_peak n_z σ stack yi xi)
  else
    np_interp n_z zf ((cps_peak n_z σ stack yi xi : ℝ) +
      parabolic_subpixel
        (cps_envelope_smooth n_z σ stack (cps_peak n_z σ stack yi xi - 1) yi xi)
        (cps_envelope_smooth n_z σ stack (cps_peak n_z σ stack yi xi) yi xi)
        (cps_envelope_smooth n_z σ stack (cps_peak n_z σ stack yi xi + 1) yi xi))

/-- Coherence written by one iteration of the CPS loop (processing.py lines
68 and 82): smoothed envelope at the peak in the boundary case, otherwise the
raw envelope linearly interpolated at the subpixel-refined index. -/
def cps_pixel_coh (n_z : ℕ) (σ : ℝ) (stack : Stack) (yi xi : ℕ) : ℝ :=
  if cps_peak n_z σ stack yi xi ≤ 0 ∨ n_z - 1 ≤ cps_peak n_z σ stack yi xi then
    cps_envelope_smooth n_z σ stack (cps_peak n_z σ stack yi xi) yi xi
  else
    np_interp n_z (fun k => cps_envelope n_z stack k yi xi)
      ((cps_peak n_z σ stack yi xi : ℝ) +
        parabolic_subpixel
          (cps_envelope_smooth n_z σ stack (cps_peak n_z σ stack yi xi - 1) yi xi)
          (cps_envelope_smooth n_z σ stack (cps_peak n_z σ stack yi xi) yi xi)
          (cps_envelope_smooth n_z σ stack (cps_peak n_z σ stack yi xi + 1) yi xi))

/-- The CPS per-pixel double loop (processing.py lines 61-82). -/
def cps_run (n_z n_y n_x : ℕ) (stack : Stack) (z : ℕ → ℝ) (σ : ℝ) : LoopState :=
  (pix_list n_y n_x).foldl
    (write_step (fun zf p =>
      (cps_pixel_height n_z σ stack zf p.1 p.2, cps_pixel_coh n_z σ stack p.1 p.2)))
    ⟨stack, z, fun _ => 0, fun _ => 0⟩

/-- Height map returned by the CPS algorithm. -/
def cps_height_map (n_z n_y n_x : ℕ) (stack : Stack) (z : ℕ → ℝ) (σ : ℝ) : Map2 :=
  (cps_run n_z n_y n_x stack z σ).H

/-- Coherence map returned by the CPS algorithm. -/
def cps_coh_map (n_z n_y n_x : ℕ) (stack : Stack) (z : ℕ → ℝ) (σ : ℝ) : Map2 :=
  (cps_run n_z n_y n_x stack z σ).C

/-- `process_cps_subpixel` of processing.py lines 28-85.  The function body
contains no raise statement: the `Except` result type only carries the spec's
error vocabulary, and the code always returns its two maps. -/
def process_cps_subpixel (n_z n_y n_x : ℕ) (stack : Stack) (z : ℕ → ℝ) (σ : ℝ) :
    Except ProcError (Map2 × Map2) :=
  Except.ok (cps_height_map n_z n_y n_x stack z σ, cps_coh_map n_z n_y n_x stack z σ)

/-- Forward transform of the stack along the scan axis
(processing.py line 113). -/
def stack_fft (n_z : ℕ) (stack : Stack) (k yi xi : ℕ) : ℂ :=
  fft n_z (fun j => (stack j yi xi : ℂ)) k

/-- Pixel-averaged magnitude spectrum `np.mean(np.abs(stack_fft), axis=(1,2))`
(processing.py line 117). -/
def mean_spectrum (n_z n_y n_x : ℕ) (stack : Stack) (k : ℕ) : ℝ :=
  (∑ yi ∈ Finset.range n_y, ∑ xi ∈ Finset.range n_x,
      Complex.abs (stack_fft n_z stack k yi xi)) / ((n_y : ℝ) * (n_x : ℝ))

/-- Carrier bin `np.argmax(mean_spectrum)` (processing.py line 118). -/
def center_idx (n_z n_y n_x : ℕ) (stack : Stack) : ℕ :=
  np_argmax n_z (mean_spectrum n_z n_y n_x stack)

/-- Half bandwidth `max(2, int(n_z * band_frac / 2))` (processing.py
line 120). -/
def half_bw (n_z : ℕ) (frac : ℝ) : ℤ := max 2 (pyInt ((n_z : ℝ) * frac / 2))

/-- Gaussian sigma `max(1.0, half_bw / 2.0)` (processing.py line 121). -/
def sigma_band (n_z : ℕ) (frac : ℝ) : ℝ := max 1 ((half_bw n_z frac : ℝ) / 2)

/-- Gaussian band window (processing.py line 124). -/
def band_arr (n_z n_y n_x : ℕ) (stack : Stack) (frac : ℝ) (k : ℕ) : ℝ :=
  Real.exp (-0.5 * (((k : ℝ) - (center_idx n_z n_y n_x stack : ℝ)) / sigma_band n_z frac) ^ 2)

/-- Analytic-signal mask (processing.py lines 127-129): bins set to 2 where
the frequency is positive, then overwritten to 1 where `np.isclose(freqs, 0)`
holds, i.e. where the frequency magnitude is within the 1e-8 absolute
tolerance of zero; all remaining bins stay 0. -/
def analytic_mask (n : ℕ) (d : ℝ) (k : ℕ) : ℝ :=
  if |fftfreq n d k| ≤ 1 / 10 ^ 8 then 1
  else if 0 < fftfreq n d k then 2 else 0

/-- Combined filter `band * analytic_mask` (processing.py line 131). -/
def filter_1d (n_z n_y n_x : ℕ) (stack : Stack) (frac d : ℝ) (k : ℕ) : ℝ :=
  band_arr n_z n_y n_x stack frac k * analytic_mask n_z d k

/-- Filtered inverse transform: the frequency-domain analytic signal
(processing.py lines 135-136); the scan step is `dz = z[1] - z[0]`
(line 110). -/
def analytic_stack_fft (n_z n_y n_x : ℕ) (stack : Stack) (z : ℕ → ℝ) (frac : ℝ)
    (k yi xi : ℕ) : ℂ :=
  ifft n_z (fun j =>
    stack_fft n_z stack j yi xi *
      ((filter_1d n_z n_y n_x stack frac (z 1 - z 0) j : ℝ) : ℂ)) k

/-- Envelope of the frequency-domain analytic signal (processing.py
line 139). -/
def fft_envelope (n_z n_y n_x : ℕ) (stack : Stack) (z : ℕ → ℝ) (frac : ℝ)
    (k yi xi : ℕ) : ℝ :=
  Complex.abs (analytic_stack_fft n_z n_y n_x stack z frac k yi xi)

/-- Smoothed envelope (processing.py line 143). -/
def fft_envelope_smooth (n_z n_y n_x : ℕ) (stack : Stack) (z : ℕ → ℝ) (σ frac : ℝ)
    (k yi xi : ℕ) : ℝ :=
  gaussian_filter1d n_z σ (fun j => fft_envelope n_z n_y n_x stack z frac j yi xi) k

/-- Peak index of the smoothed envelope (processing.py line 146). -/
def fft_peak (n_z n_y n_x : ℕ) (stack : Stack) (z : ℕ → ℝ) (σ frac : ℝ)
    (yi xi : ℕ) : ℕ :=
  np_argmax n_z (fun k => fft_envelope_smooth n_z n_y n_x stack z σ frac k yi xi)

/-- Boundary clamp of the FFT-phase loop (processing.py lines 159-162):
`if i <= 0: i = 1` then `if i >= n_z - 1: i = n_z - 2`. -/
def fft_clamp (n_z i0 : ℕ) : ℕ :=
  if n_z - 1 ≤ (if i0 ≤ 0 then 1 else i0) then n_z - 2 else (if i0 ≤ 0 then 1 else i0)

/-- Clamped peak index used by one iteration of the FFT-phase loop. -/
def fft_i (n_z n_y n_x : ℕ) (stack : Stack) (z : ℕ → ℝ) (σ frac : ℝ) (yi xi : ℕ) : ℕ :=
  fft_clamp n_z (fft_peak n_z n_y n_x stack z σ frac yi xi)

/-- Subpixel-refined fractional index of one iteration of the FFT-phase loop
(processing.py lines 165-169). -/
def fft_float_idx (n_z n_y n_x : ℕ) (stack : Stack) (z : ℕ → ℝ) (σ frac : ℝ)
    (yi xi : ℕ) : ℝ :=
  (fft_i n_z n_y n_x stack z σ frac yi xi : ℝ) +
    parabolic_subpixel
      (fft_envelope_smooth n_z n_y n_x stack z σ frac
        (fft_i n_z n_y n_x stack z σ frac yi xi - 1) yi xi)
      (fft_envelope_smooth n_z n_y n_x stack z σ frac
        (fft_i n_z n_y n_x stack z σ frac yi xi) yi xi)
      (fft_envelope_smooth n_z n_y n_x stack z σ frac
        (fft_i n_z n_y n_x stack z σ frac yi xi + 1) yi xi)

/-- Complex value `real_val + 1j*imag_val` interpolated at the fractional
index (processing.py lines 172-177). -/
def fft_pixel_val (n_z n_y n_x : ℕ) (stack : Stack) (z : ℕ → ℝ) (σ frac : ℝ)
    (yi xi : ℕ) : ℂ :=
  ((np_interp n_z (fun j => (analytic_stack_fft n_z n_y n_x stack z frac j yi xi).re)
      (fft_float_idx n_z n_y n_x stack z σ frac yi xi) : ℝ) : ℂ) +
    ((np_interp n_z (fun j => (analytic_stack_fft n_z n_y n_x stack z frac j yi xi).im)
      (fft_float_idx n_z n_y n_x stack z σ frac yi xi) : ℝ) : ℂ) * Complex.I

/-- Wrapped phase written by one iteration of the FFT-phase loop
(processing.py line 179). -/
def fft_pixel_phase (n_z n_y n_x : ℕ) (stack : Stack) (z : ℕ → ℝ) (σ frac : ℝ)
    (yi xi : ℕ) : ℝ :=
  Complex.arg (fft_pixel_val n_z n_y n_x stack z σ frac yi xi)

/-- Coherence written by one iteration of the FFT-phase loop (processing.py
line 180). -/
def fft_pixel_coh (n_z n_y n_x : ℕ) (stack : Stack) (z : ℕ → ℝ) (σ frac : ℝ)
    (yi xi : ℕ) : ℝ :=
  np_interp n_z (fun k => fft_envelope n_z n_y n_x stack z frac k yi xi)
    (fft_float_idx n_z n_y n_x stack z σ frac yi xi)

/-- The FFT-phase per-pixel double loop (processing.py lines 154-180). -/
def fft_run (n_z n_y n_x : ℕ) (stack : Stack) (z : ℕ → ℝ) (σ frac : ℝ) : LoopState :=
  (pix_list n_y n_x).foldl
    (write_step (fun _ p =>
      (fft_pixel_phase n_z n_y n_x stack z σ frac p.1 p.2,
       fft_pixel_coh n_z n_y n_x stack z σ frac p.1 p.2)))
    ⟨stack, z, fun _ => 0, fun _ => 0⟩

/-- `process_fft_phase` of processing.py lines 87-183: raises (ValueError,
named InsufficientSamples by the spec) when the scan axis is shorter than 3,
otherwise runs the adaptive-bandpass pipeline and the per-pixel loop. -/
def process_fft_phase (n_z n_y n_x : ℕ) (stack : Stack) (z : ℕ → ℝ) (σ frac : ℝ) :
    Except ProcError (Map2 × Map2) :=
  if n_z < 3 then Except.error ProcError.insufficientSamples
  else
    Except.ok ((fft_run n_z n_y n_x stack z σ frac).H,
               (fft_run n_z n_y n_x stack z σ frac).C)

/-- `process_stack_fft` of `src/fft_phase_extraction.py` lines 16-92,
translated independently of `process_fft_phase`: the same length check, then
the adaptive band-pass analytic-signal pipeline and per-pixel loop, written
out with the local bindings of that file. -/
def process_stack_fft (n_z n_y n_x : ℕ) (stack : Stack) (z : ℕ → ℝ) (σ frac : ℝ) :
    Except ProcError (Map2 × Map2) :=
  if n_z < 3 then Except.error ProcError.insufficientSamples
  else
    let dz := z 1 - z 0
    let sfft := fun k yi xi => fft n_z (fun j => (stack j yi xi : ℂ)) k
    let mean_spec := fun k : ℕ =>
      (∑ yi ∈ Finset.range n_y, ∑ xi ∈ Finset.range n_x,
          Complex.abs (sfft k yi xi)) / ((n_y : ℝ) * (n_x : ℝ))
    let center := np_argmax n_z mean_spec
    let hbw : ℤ := max 2 (pyInt ((n_z : ℝ) * frac / 2))
    let sg : ℝ := max 1 ((hbw : ℝ) / 2)
    let band := fun k : ℕ => Real.exp (-0.5 * (((k : ℝ) - (center : ℝ)) / sg) ^ 2)
    let mask := fun k : ℕ =>
      if |fftfreq n_z dz k| ≤ 1 / 10 ^ 8 then (1 : ℝ)
      else if 0 < fftfreq n_z dz k then 2 else 0
    let filt := fun k : ℕ => band k * mask k
    let analytic := fun k yi xi => ifft n_z (fun j => sfft j yi xi * ((filt j : ℝ) : ℂ)) k
    let env := fun k yi xi => Complex.abs (analytic k yi xi)
    let env_smooth := fun k yi xi =>
      gaussian_filter1d n_z σ (fun j => env j yi xi) k
    let pk := fun yi xi => np_argmax n_z (fun k => env_smooth k yi xi)
    let ci := fun yi xi =>
      if n_z - 1 ≤ (if pk yi xi ≤ 0 then 1 else pk yi xi) then n_z - 2
      else (if pk yi xi ≤ 0 then 1 else pk yi xi)
    let fidx := fun yi xi =>
      (ci yi xi : ℝ) +
        parabolic_subpixel (env_smooth (ci yi xi - 1) yi xi)
          (env_smooth (ci yi xi) yi xi) (env_smooth (ci yi xi + 1) yi xi)
    let result :=
      (pix_list n_y n_x).foldl
        (write_step (fun _ p =>
          (Complex.arg
            (((np_interp n_z (fun j => (analytic j p.1 p.2).re) (fidx p.1 p.2) : ℝ) : ℂ) +
              ((np_interp n_z (fun j => (analytic j p.1 p.2).im) (fidx p.1 p.2) : ℝ) : ℂ) *
                Complex.I),
           np_interp n_z (fun k => env k p.1 p.2) (fidx p.1 p.2))))
        ⟨stack, z, fun _ => 0, fun _ => 0⟩
    Except.ok (result.H, result.C)

/-- Modelled from the spec: the strictly-positive-frequency bins of the
forward transform's frequency grid (§4.4 Mode B precondition).  No direct
carrier-bin readout implementation exists under src/; the whole Mode B is
reconstructed from §4.4 of the spec. -/
def pos_freq_bins (n : ℕ) (d : ℝ) : List ℕ :=
  (List.range n).filter (fun k => decide (0 < fftfreq n d k))

/-- Modelled from the spec: Mode B carrier selection - the strictly positive
frequency bin with the largest pixel-averaged magnitude (first occurrence
wins on ties, §7), or none when no strictly positive bin exists. -/
def carrier_bin (n_z n_y n_x : ℕ) (stack : Stack) (d : ℝ) : Option ℕ :=
  match pos_freq_bins n_z d with
  | [] => none
  | k :: ks => some (argmax_fold (mean_spectrum n_z n_y n_x stack) k ks)

/-- Modelled from the spec: Mode B (direct carrier-bin readout) of §4.4,
absent from src/.  Fails with CarrierNotFound when no strictly positive
frequency bin exists; otherwise reads the wrapped phase as the angle of the
per-pixel spectral value at the carrier bin, and the coherence as its
magnitude. -/
def process_fft_carrier (n_z n_y n_x : ℕ) (stack : Stack) (z : ℕ → ℝ) :
    Except ProcError (Map2 × Map2) :=
  match carrier_bin n_z n_y n_x stack (z 1 - z 0) with
  | none => Except.error ProcError.carrierNotFound
  | some c =>
      Except.ok (fun q => Complex.arg (stack_fft n_z stack c q.1 q.2),
                 fun q => Complex.abs (stack_fft n_z stack c q.1 q.2))

section ArgmaxLemmas

variable (f : ℕ → ℝ)

lemma argmax_fold_cons (b x : ℕ) (t : List ℕ) :
    argmax_fold f b (x :: t) = argmax_fold f (if f b < f x then x else b) t := rfl

lemma argmax_fold_mem : ∀ (l : List ℕ) (b : ℕ), argmax_fold f b l = b ∨ argmax_fold f b l ∈ l := by
  intro l
  induction l with
  | nil => intro b; exact Or.inl rfl
  | cons x t ih =>
    intro b
    rw [argmax_fold_cons]
    rcases ih (if f b < f x then x else b) with h | h
    · rw [h]
      by_cases hc : f b < f x
      · rw [if_pos hc]; exact Or.inr (List.mem_cons_self x t)
      · rw [if_neg hc]; exact Or.inl rfl
    · exact Or.inr (List.mem_cons_of_mem x h)

lemma argmax_fold_le : ∀ (l : List ℕ) (b : ℕ),
    f b ≤ f (argmax_fold f b l) ∧ ∀ j ∈ l, f j ≤ f (argmax_fold f b l) := by
  intro l
  induction l with
  | nil =>
    intro b
    refine ⟨le_refl _, ?_⟩
    intro j hj
    exact absurd hj (List.not_mem_nil j)
  | cons x t ih =>
    intro b
    rw [argmax_fold_cons]
    obtain ⟨h1, h2⟩ := ih (if f b < f x then x else b)
    constructor
    · refine le_trans ?_ h1
      by_cases hc : f b < f x
      · rw [if_pos hc]; exact le_of_lt hc
      · rw [if_neg hc]
    · intro j hj
      rcases List.mem_cons.mp hj with rfl | hj
      · refine le_trans ?_ h1
        by_cases hc : f b < f j
        · rw [if_pos hc]
        · rw [if_neg hc]; exact not_lt.mp hc
      · exact h2 j hj

lemma np_argmax_lt {n : ℕ} (hn : 0 < n) : np_argmax n f < n := by
  rcases argmax_fold_mem f (List.range n) 0 with h | h
  · rw [np_argmax, h]; exact hn
  · exact List.mem_range.mp h

lemma np_argmax_le {n j : ℕ} (hj : j < n) : f j ≤ f (np_argmax n f) :=
  (argmax_fold_le f (List.range n) 0).2 j (List.mem_range.mpr hj)

end ArgmaxLemmas

/-- The parabolic offset at a detected maximum (centre sample at least both
neighbours) has magnitude at most one half, in both branches. -/
lemma parabolic_abs_le_half {a b c : ℝ} (ha : a ≤ b) (hc : c ≤ b) :
    |parabolic_subpixel a b c| ≤ 1 / 2 := by
  unfold parabolic_subpixel
  split_ifs with h
  · norm_num
  · push_neg at h
    have hd0 : a - 2 * b + c ≠ 0 := by
      intro h0
      rw [h0] at h
      norm_num at h
    have hdne : a - 2 * b + c ≤ 0 := by linarith
    have hnum : |a - c| ≤ |a - 2 * b + c| := by
      rw [abs_of_nonpos hdne, abs_le]
      constructor <;> linarith
    have hpos : 0 < |a - 2 * b + c| := abs_pos.mpr hd0
    rw [abs_div, abs_mul]
    rw [div_le_iff₀ hpos]
    have h05 : |(0.5 : ℝ)| = 1 / 2 := by norm_num
    rw [h05]
    nlinarith [abs_nonneg (a - c)]

/-- Clamped linear interpolation of a sequence that is monotone on 0..n-1
stays within the first and last sample values, for every fractional index. -/
lemma np_interp_mem (n : ℕ) (f : ℕ → ℝ)
    (hmono : ∀ a b : ℕ, a ≤ b → b ≤ n - 1 → f a ≤ f b) (t : ℝ) :
    f 0 ≤ np_interp n f t ∧ np_interp n f t ≤ f (n - 1) := by
  unfold np_interp
  split_ifs with h1 h2
  · exact ⟨le_refl _, hmono 0 (n - 1) (Nat.zero_le _) (le_refl _)⟩
  · exact ⟨hmono 0 (n - 1) (Nat.zero_le _) (le_refl _), le_refl _⟩
  · push_neg at h1 h2
    have hfl0 : (0 : ℤ) ≤ ⌊t⌋ := Int.floor_nonneg.mpr (le_of_lt h1)
    have hjc : (((⌊t⌋).toNat : ℕ) : ℝ) = ((⌊t⌋ : ℤ) : ℝ) := by
      norm_cast
      exact Int.toNat_of_nonneg hfl0
    have hle : (((⌊t⌋).toNat : ℕ) : ℝ) ≤ t := by
      rw [hjc]; exact Int.floor_le t
    have hlt : t < (((⌊t⌋).toNat : ℕ) : ℝ) + 1 := by
      rw [hjc]; exact Int.lt_floor_add_one t
    have hn2 : 2 ≤ n := by
      by_contra hcon
      push_neg at hcon
      interval_cases n <;> simp at h2 <;> linarith
    have hjn : (⌊t⌋).toNat + 1 ≤ n - 1 := by
      have hjr : (((⌊t⌋).toNat : ℕ) : ℝ) < (n : ℝ) - 1 := lt_of_le_of_lt hle h2
      have hcast : ((n - 1 : ℕ) : ℝ) = (n : ℝ) - 1 := by
        rw [Nat.cast_sub (by omega)]
        norm_num
      have : (((⌊t⌋).toNat : ℕ) : ℝ) < ((n - 1 : ℕ) : ℝ) := by rw [hcast]; exact hjr
      have hlt2 : (⌊t⌋).toNat < n - 1 := Nat.cast_lt.mp this
      omega
    have hd0 : 0 ≤ t - (((⌊t⌋).toNat : ℕ) : ℝ) := sub_nonneg.mpr hle
    have hd1 : t - (((⌊t⌋).toNat : ℕ) : ℝ) ≤ 1 := by linarith
    have hstep : f (⌊t⌋).toNat ≤ f ((⌊t⌋).toNat + 1) :=
      hmono (⌊t⌋).toNat ((⌊t⌋).toNat + 1) (Nat.le_succ _) hjn
    have hlow : f 0 ≤ f (⌊t⌋).toNat := hmono 0 (⌊t⌋).toNat (Nat.zero_le _) (by omega)
    have hhigh : f ((⌊t⌋).toNat + 1) ≤ f (n - 1) :=
      hmono ((⌊t⌋).toNat + 1) (n - 1) hjn (le_refl _)
    constructor
    · have hm := mul_nonneg hd0 (sub_nonneg.mpr hstep)
      linarith
    · have hm2 : (t - (((⌊t⌋).toNat : ℕ) : ℝ)) * (f ((⌊t⌋).toNat + 1) - f (⌊t⌋).toNat) ≤
          1 * (f ((⌊t⌋).toNat + 1) - f (⌊t⌋).toNat) :=
        mul_le_mul_of_nonneg_right hd1 (sub_nonneg.mpr hstep)
      linarith

/-- Spec lemma for the per-pixel loops: folding the write step over any pixel
list leaves the input stack and scan axis untouched and fills each listed
pixel of the two output maps with its per-pixel value. -/
lemma write_step_foldl (g : (ℕ → ℝ) → ℕ × ℕ → ℝ × ℝ) :
    ∀ (l : List (ℕ × ℕ)) (s : Stack) (zf : ℕ → ℝ) (h0 c0 : Map2),
      l.foldl (write_step g) ⟨s, zf, h0, c0⟩ =
        ⟨s, zf, fun q => if q ∈ l then (g zf q).1 else h0 q,
         fun q => if q ∈ l then (g zf q).2 else c0 q⟩ := by
  intro l
  induction l with
  | nil =>
    intro s zf h0 c0
    rw [List.foldl_nil]
    refine LoopState.ext rfl rfl ?_ ?_ <;> funext q <;> simp
  | cons p t ih =>
    intro s zf h0 c0
    rw [List.foldl_cons]
    have hstep : write_step g ⟨s, zf, h0, c0⟩ p =
        ⟨s, zf, Function.update h0 p (g zf p).1, Function.update c0 p (g zf p).2⟩ := rfl
    rw [hstep, ih]
    refine LoopState.ext rfl rfl ?_ ?_ <;> funext q
    · simp only [Function.update_apply, List.mem_cons]
      by_cases hq : q = p
      · simp [hq]
      · by_cases hql : q ∈ t <;> simp [hq, hql]
    · simp only [Function.update_apply, List.mem_cons]
      by_cases hq : q = p
      · simp [hq]
      · by_cases hql : q ∈ t <;> simp [hq, hql]

lemma mem_pix_list (n_y n_x a b : ℕ) :
    (a, b) ∈ pix_list n_y n_x ↔ a < n_y ∧ b < n_x := by
  unfold pix_list
  rw [List.mem_flatMap]
  constructor
  · rintro ⟨yi, hyi, hmem⟩
    rw [List.mem_map] at hmem
    obtain ⟨xi, hxi, heq⟩ := hmem
    injection heq with e1 e2
    subst e1
    subst e2
    exact ⟨List.mem_range.mp hyi, List.mem_range.mp hxi⟩
  · rintro ⟨ha, hb⟩
    exact ⟨a, List.mem_range.mpr ha, List.mem_map.mpr ⟨b, List.mem_range.mpr hb, rfl⟩⟩

/-- Closed form of the CPS loop result. -/
lemma cps_run_spec (n_z n_y n_x : ℕ) (stack : Stack) (z : ℕ → ℝ) (σ : ℝ) :
    cps_run n_z n_y n_x stack z σ =
      ⟨stack, z,
       fun q => if q ∈ pix_list n_y n_x then cps_pixel_height n_z σ stack z q.1 q.2 else 0,
       fun q => if q ∈ pix_list n_y n_x then cps_pixel_coh n_z σ stack q.1 q.2 else 0⟩ := by
  unfold cps_run
  rw [write_step_foldl]

/-- Closed form of the FFT-phase loop result. -/
lemma fft_run_spec (n_z n_y n_x : ℕ) (stack : Stack) (z : ℕ → ℝ) (σ frac : ℝ) :
    fft_run n_z n_y n_x stack z σ frac =
      ⟨stack, z,
       fun q => if q ∈ pix_list n_y n_x then
         fft_pixel_phase n_z n_y n_x stack z σ frac q.1 q.2 else 0,
       fun q => if q ∈ pix_list n_y n_x then
         fft_pixel_coh n_z n_y n_x stack z σ frac q.1 q.2 else 0⟩ := by
  unfold fft_run
  rw [write_step_foldl]

lemma cps_height_map_apply (n_z n_y n_x : ℕ) (stack : Stack) (z : ℕ → ℝ) (σ : ℝ)
    {yi xi : ℕ} (hy : yi < n_y) (hx : xi < n_x) :
    cps_height_map n_z n_y n_x stack z σ (yi, xi) = cps_pixel_height n_z σ stack z yi xi := by
  unfold cps_height_map
  rw [cps_run_spec]
  exact if_pos ((mem_pix_list n_y n_x yi xi).mpr ⟨hy, hx⟩)

lemma cps_coh_map_apply (n_z n_y n_x : ℕ) (stack : Stack) (z : ℕ → ℝ) (σ : ℝ)
    {yi xi : ℕ} (hy : yi < n_y) (hx : xi < n_x) :
    cps_coh_map n_z n_y n_x stack z σ (yi, xi) = cps_pixel_coh n_z σ stack yi xi := by
  unfold cps_coh_map
  rw [cps_run_spec]
  exact if_pos ((mem_pix_list n_y n_x yi xi).mpr ⟨hy, hx⟩)

/-- Claim C1 (amended): `process_cps_subpixel` performs no sample-count check
and cannot fail with InsufficientSamples - on a length-2 axis it returns its
two maps, every pixel taking the boundary branch (the peak index is 0 or 1).
The length-&lt;-3 check lives in `process_fft_phase`, which fails on a length-2
axis and returns the maps (raising nothing) on a length-3 axis. -/
theorem c1_no_length_check (n_y n_x : ℕ) (stack : Stack) (z : ℕ → ℝ) (σ frac : ℝ) :
    process_cps_subpixel 2 n_y n_x stack z σ =
      Except.ok (cps_height_map 2 n_y n_x stack z σ, cps_coh_map 2 n_y n_x stack z σ) ∧
    (∀ yi xi : ℕ, cps_peak 2 σ stack yi xi = 0 ∨ cps_peak 2 σ stack yi xi = 2 - 1) ∧
    process_fft_phase 2 n_y n_x stack z σ frac = Except.error ProcError.insufficientSamples ∧
    ∀ e : ProcError, process_fft_phase 3 n_y n_x stack z σ frac ≠ Except.error e := by
  refine ⟨rfl, ?_, ?_, ?_⟩
  · intro yi xi
    have h := @np_argmax_lt (fun k => cps_envelope_smooth 2 σ stack k yi xi) 2 (by norm_num)
    unfold cps_peak
    omega
  · unfold process_fft_phase
    rw [if_pos (by norm_num)]
  · intro e
    unfold process_fft_phase
    rw [if_neg (by norm_num)]
    exact fun h => Except.noConfusion h

/-- Counterexample to claim C1 as stated: on a length-2 scan axis the CPS
function returns a result instead of failing with InsufficientSamples. -/
theorem c1_counterexample :
    process_cps_subpixel 2 1 1 (fun _ _ _ => 0) (fun _ => 0) 8 ≠
      Except.error ProcError.insufficientSamples := by
  unfold process_cps_subpixel
  exact fun h => Except.noConfusion h

/-- Witness for the amended C1 at a concrete length-2 input. -/
theorem c1_witness :
    process_fft_phase 2 1 1 (fun _ _ _ => 0) (fun _ => 0) 10 (3 / 20) =
      Except.error ProcError.insufficientSamples :=
  (c1_no_length_check 1 1 (fun _ _ _ => 0) (fun _ => 0) 10 (3 / 20)).2.2.1

/-- Claim C5: when the smoothed-envelope peak index of a pixel is 0 or
n_z - 1, the CPS loop skips subpixel refinement: the height is the scan
position at that index, the coherence is the smoothed envelope there, and no
error is raised. -/
theorem c5_boundary_clamp (n_z n_y n_x : ℕ) (stack : Stack) (z : ℕ → ℝ) (σ : ℝ)
    (yi xi : ℕ) (hy : yi < n_y) (hx : xi < n_x)
    (hb : cps_peak n_z σ stack yi xi = 0 ∨ cps_peak n_z σ stack yi xi = n_z - 1) :
    process_cps_subpixel n_z n_y n_x stack z σ =
      Except.ok (cps_height_map n_z n_y n_x stack z σ, cps_coh_map n_z n_y n_x stack z σ) ∧
    cps_height_map n_z n_y n_x stack z σ (yi, xi) = z (cps_peak n_z σ stack yi xi) ∧
    cps_coh_map n_z n_y n_x stack z σ (yi, xi) =
      cps_envelope_smooth n_z σ stack (cps_peak n_z σ stack yi xi) yi xi := by
  have hcond : cps_peak n_z σ stack yi xi ≤ 0 ∨ n_z - 1 ≤ cps_peak n_z σ stack yi xi := by
    rcases hb with h | h
    · exact Or.inl (le_of_eq h)
    · exact Or.inr (ge_of_eq h)
  refine ⟨rfl, ?_, ?_⟩
  · rw [cps_height_map_apply n_z n_y n_x stack z σ hy hx]
    unfold cps_pixel_height
    rw [if_pos hcond]
  · rw [cps_coh_map_apply n_z n_y n_x stack z σ hy hx]
    unfold cps_pixel_coh
    rw [if_pos hcond]

/-- Witness for C5: a length-1 axis puts every peak at the boundary, and the
reported height is the scan position there. -/
theorem c5_witness :
    cps_height_map 1 1 1 (fun _ _ _ => 0) (fun _ => 0) 8 (0, 0) = 0 := by
  have hb : cps_peak 1 8 (fun _ _ _ => 0) 0 0 = 0 ∨
      cps_peak 1 8 (fun _ _ _ => 0) 0 0 = 1 - 1 := by
    left
    unfold cps_peak np_argmax argmax_fold
    simp [show List.range 1 = [0] from rfl]
  exact (c5_boundary_clamp 1 1 1 (fun _ _ _ => 0) (fun _ => 0) 8 0 0
    (by norm_num) (by norm_num) hb).2.1

/-- Claim C6: on a strictly increasing scan axis every CPS height lies in the
closed interval spanned by the first and last scan positions. -/
theorem c6_height_range (n_z n_y n_x : ℕ) (stack : Stack) (z : ℕ → ℝ) (σ : ℝ)
    (yi xi : ℕ) (h0 : 0 < n_z)
    (hz : ∀ a b : ℕ, a < b → b < n_z → z a < z b)
    (hy : yi < n_y) (hx : xi < n_x) :
    z 0 ≤ cps_height_map n_z n_y n_x stack z σ (yi, xi) ∧
      cps_height_map n_z n_y n_x stack z σ (yi, xi) ≤ z (n_z - 1) := by
  have hmono : ∀ a b : ℕ, a ≤ b → b ≤ n_z - 1 → z a ≤ z b := by
    intro a b hab hb
    rcases Nat.eq_or_lt_of_le hab with h | h
    · rw [h]
    · exact le_of_lt (hz a b h (by omega))
  rw [cps_height_map_apply n_z n_y n_x stack z σ hy hx]
  unfold cps_pixel_height
  split_ifs with hbd
  · have hip : cps_peak n_z σ stack yi xi < n_z := by
      unfold cps_peak
      exact @np_argmax_lt (fun k => cps_envelope_smooth n_z σ stack k yi xi) n_z h0
    exact ⟨hmono 0 _ (Nat.zero_le _) (by omega), hmono _ (n_z - 1) (by omega) (le_refl _)⟩
  · exact np_interp_mem n_z z hmono _

/-- Witness for C6 at a concrete length-1 input. -/
theorem c6_witness :
    (0 : ℝ) ≤ cps_height_map 1 1 1 (fun _ _ _ => 0) (fun _ => 0) 8 (0, 0) ∧
      cps_height_map 1 1 1 (fun _ _ _ => 0) (fun _ => 0) 8 (0, 0) ≤ (0 : ℝ) :=
  c6_height_range 1 1 1 (fun _ _ _ => 0) (fun _ => 0) 8 0 0 (by norm_num)
    (by intro a b hab hb; exfalso; omega) (by norm_num) (by norm_num)

/-- Claim C9: neither per-pixel reconstruction loop writes to the input
intensity stack or the scan axis - the final loop state returns both exactly
as supplied, and the output maps are built from the zero-initialised fresh
maps of the call. -/
theorem c9_no_mutation (n_z n_y n_x : ℕ) (stack : Stack) (z : ℕ → ℝ) (σ frac : ℝ) :
    (cps_run n_z n_y n_x stack z σ).stack = stack ∧
    (cps_run n_z n_y n_x stack z σ).z = z ∧
    (fft_run n_z n_y n_x stack z σ frac).stack = stack ∧
    (fft_run n_z n_y n_x stack z σ frac).z = z := by
  rw [cps_run_spec, fft_run_spec]
  exact ⟨rfl, rfl, rfl, rfl⟩

/-- Claim C3: the subpixel primitive returns 0 below the 1e-12 denominator
threshold, the closed-form parabolic offset otherwise, and on the triple
(0, 1, 0.5) it returns 0.5·(0-0.5)/(0-2+0.5) = 1/6. -/
theorem c3_parabolic_contract :
    (∀ a b c : ℝ, |a - 2 * b + c| < 1 / 10 ^ 12 → parabolic_subpixel a b c = 0) ∧
    (∀ a b c : ℝ, ¬ |a - 2 * b + c| < 1 / 10 ^ 12 →
      parabolic_subpixel a b c = 0.5 * (a - c) / (a - 2 * b + c)) ∧
    parabolic_subpixel 0 1 (1 / 2) = 1 / 6 := by
  refine ⟨?_, ?_, ?_⟩
  · intro a b c h
    unfold parabolic_subpixel
    rw [if_pos h]
  · intro a b c h
    unfold parabolic_subpixel
    rw [if_neg h]
  · unfold parabolic_subpixel
    rw [if_neg (by norm_num [abs_of_nonneg])]
    norm_num

/-- Witness for C3 at concrete inputs: the degenerate branch at (0, 0, 0) and
the generic branch at (0, 1, 0.5). -/
theorem c3_witness :
    parabolic_subpixel 0 0 0 = 0 ∧
    parabolic_subpixel 0 1 (1 / 2) = 0.5 * (0 - 1 / 2) / (0 - 2 * 1 + 1 / 2) :=
  ⟨c3_parabolic_contract.1 0 0 0 (by norm_num),
   c3_parabolic_contract.2.1 0 1 (1 / 2) (by norm_num [abs_of_nonneg])⟩

/-- Claim C4: at a detected integer extremum (centre value at least both
neighbours) with a non-degenerate denominator, the parabolic offset lies in
[-0.5, 0.5]. -/
theorem c4_offset_range (a b c : ℝ) (ha : a ≤ b) (hc : c ≤ b)
    (hd : 1 / 10 ^ 12 ≤ |a - 2 * b + c|) :
    parabolic_subpixel a b c ∈ Set.Icc (-(1 / 2) : ℝ) (1 / 2) := by
  have h := parabolic_abs_le_half ha hc
  have hd2 : (0 : ℝ) ≤ |a - 2 * b + c| := le_trans (by norm_num) hd
  rw [Set.mem_Icc]
  exact abs_le.mp h

/-- Witness for C4 at the concrete extremum triple (0, 1, 0.5). -/
theorem c4_witness :
    parabolic_subpixel 0 1 (1 / 2) ∈ Set.Icc (-(1 / 2) : ℝ) (1 / 2) :=
  c4_offset_range 0 1 (1 / 2) (by norm_num) (by norm_num) (by norm_num [abs_of_nonneg])

/-- Claim C7: on a valid scan axis (length at least 3), every entry of the
wrapped-phase map returned by `process_fft_phase` lies in (-π, π]. -/
theorem c7_phase_range (n_z n_y n_x : ℕ) (stack : Stack) (z : ℕ → ℝ) (σ frac : ℝ)
    (h3 : 3 ≤ n_z) (W C : Map2)
    (hok : process_fft_phase n_z n_y n_x stack z σ frac = Except.ok (W, C)) (q : ℕ × ℕ) :
    -Real.pi < W q ∧ W q ≤ Real.pi := by
  unfold process_fft_phase at hok
  rw [if_neg (by omega)] at hok
  injection hok with hpair
  injection hpair with h1 h2
  rw [fft_run_spec] at h1
  dsimp only at h1
  subst h1
  by_cases hq : q ∈ pix_list n_y n_x
  · dsimp only
    rw [if_pos hq]
    unfold fft_pixel_phase
    exact ⟨Complex.neg_pi_lt_arg _, Complex.arg_le_pi _⟩
  · dsimp only
    rw [if_neg hq]
    exact ⟨neg_lt_zero.mpr Real.pi_pos, Real.pi_pos.le⟩

/-- Witness for C7 at a concrete length-3 input. -/
theorem c7_witness :
    process_fft_phase 3 0 0 (fun _ _ _ => 0) (fun _ => 0) 10 (3 / 20) =
      Except.ok ((fun _ => 0 : Map2), (fun _ => 0 : Map2)) ∧
    (-Real.pi < (0 : ℝ) ∧ (0 : ℝ) ≤ Real.pi) := by
  constructor
  · rfl
  · exact c7_phase_range 3 0 0 (fun _ _ _ => 0) (fun _ => 0) 10 (3 / 20) (by norm_num)
      (fun _ => 0) (fun _ => 0) rfl (0, 0)

/-- Counterexample to claim C8 as stated: the code truncates
(`int(n_z * band_frac / 2)`, giving 3 at N = 48, band_frac = 0.15, where
rounding gives 4), and its mask assigns 1, not 2, to a strictly positive
frequency bin lying within the 1e-8 `np.isclose` tolerance of zero. -/
theorem c8_counterexample :
    half_bw 48 (3 / 20) ≠ max 2 (round ((48 : ℝ) * (3 / 20) / 2)) ∧
    0 < fftfreq 4 25000000 1 ∧ analytic_mask 4 25000000 1 ≠ 2 := by
  have hfl : ⌊(48 : ℝ) * (3 / 20) / 2⌋ = 3 := by
    rw [Int.floor_eq_iff]
    norm_num
  have hrd : round ((48 : ℝ) * (3 / 20) / 2) = 4 := by
    rw [round_eq]
    rw [show (48 : ℝ) * (3 / 20) / 2 + 1 / 2 = 41 / 10 from by norm_num]
    rw [Int.floor_eq_iff]
    norm_num
  have hf : fftfreq 4 25000000 1 = 1 / 100000000 := by
    unfold fftfreq
    rw [if_pos (by norm_num)]
    norm_num
  refine ⟨?_, ?_, ?_⟩
  · unfold half_bw pyInt
    rw [if_neg (by norm_num), show ((48 : ℕ) : ℝ) = 48 from by norm_num, hfl, hrd]
    norm_num
  · rw [hf]
    norm_num
  · unfold analytic_mask
    rw [hf]
    rw [if_pos (by rw [abs_of_nonneg (by norm_num : (0 : ℝ) ≤ 1 / 100000000)]; norm_num)]
    norm_num

/-- Claim C8 (amended): the carrier index maximises the pixel-averaged
magnitude spectrum, the half-bandwidth is max(2, trunc(N·band_frac/2)) with
truncation toward zero (not rounding), the Gaussian sigma is
max(1, half_bw/2), and the analytic mask sends bins within the 1e-8
`np.isclose` tolerance of zero frequency to 1, the remaining strictly
positive bins to 2, and the remaining bins to 0. -/
theorem c8_filter_design (n_z n_y n_x : ℕ) (stack : Stack) (frac d : ℝ) :
    (∀ j, j < n_z →
      mean_spectrum n_z n_y n_x stack j ≤
        mean_spectrum n_z n_y n_x stack (center_idx n_z n_y n_x stack)) ∧
    half_bw n_z frac = max 2 (pyInt ((n_z : ℝ) * frac / 2)) ∧
    sigma_band n_z frac = max 1 ((half_bw n_z frac : ℝ) / 2) ∧
    (∀ k, (|fftfreq n_z d k| ≤ 1 / 10 ^ 8 → analytic_mask n_z d k = 1) ∧
      (1 / 10 ^ 8 < |fftfreq n_z d k| → 0 < fftfreq n_z d k → analytic_mask n_z d k = 2) ∧
      (1 / 10 ^ 8 < |fftfreq n_z d k| → fftfreq n_z d k ≤ 0 → analytic_mask n_z d k = 0)) := by
  refine ⟨?_, rfl, rfl, ?_⟩
  · intro j hj
    unfold center_idx
    exact np_argmax_le (mean_spectrum n_z n_y n_x stack) hj
  · intro k
    refine ⟨?_, ?_, ?_⟩
    · intro h
      unfold analytic_mask
      rw [if_pos h]
    · intro h hp
      unfold analytic_mask
      rw [if_neg (not_le.mpr h), if_pos hp]
    · intro h hn
      unfold analytic_mask
      rw [if_neg (not_le.mpr h), if_neg (not_lt.mpr hn)]

/-- Witness for amended C8: the negative-frequency bin 2 of a 3-point axis
with unit step gets mask weight 0. -/
theorem c8_witness : analytic_mask 3 1 2 = 0 := by
  have hf : fftfreq 3 1 2 = -(1 / 3) := by
    unfold fftfreq
    rw [if_neg (by norm_num)]
    norm_num
  refine ((c8_filter_design 3 1 1 (fun _ _ _ => 0) (3 / 20) 1).2.2.2 2).2.2 ?_ ?_
  · rw [hf, abs_neg, abs_of_nonneg (by norm_num : (0 : ℝ) ≤ 1 / 3)]
    norm_num
  · rw [hf]
    norm_num

/-- Claim C10: on any valid input the two FFT-phase implementations
(`process_fft_phase` of processing.py and `process_stack_fft` of
fft_phase_extraction.py) return identical wrapped-phase and coherence maps. -/
theorem c10_pipelines_equal (n_z n_y n_x : ℕ) (stack : Stack) (z : ℕ → ℝ) (σ frac : ℝ)
    (h3 : 3 ≤ n_z) :
    process_fft_phase n_z n_y n_x stack z σ frac =
      process_stack_fft n_z n_y n_x stack z σ frac := rfl

/-- Witness for C10 at a concrete length-3 input. -/
theorem c10_witness :
    process_fft_phase 3 0 0 (fun _ _ _ => 0) (fun _ => 0) 10 (3 / 20) =
      process_stack_fft 3 0 0 (fun _ _ _ => 0) (fun _ => 0) 10 (3 / 20) :=
  c10_pipelines_equal 3 0 0 (fun _ _ _ => 0) (fun _ => 0) 10 (3 / 20) (by norm_num)

/-- Claim C2 (spec-modelled Mode B): with no strictly positive frequency bin
the direct carrier-bin readout fails with CarrierNotFound; otherwise it picks
a strictly positive bin maximising the pixel-averaged magnitude among them
and reads each pixel's wrapped phase as the angle of the spectral value at
that bin (coherence: its magnitude). -/
theorem c2_carrier_mode (n_z n_y n_x : ℕ) (stack : Stack) (z : ℕ → ℝ) :
    ((∀ k, k < n_z → ¬ 0 < fftfreq n_z (z 1 - z 0) k) →
      process_fft_carrier n_z n_y n_x stack z = Except.error ProcError.carrierNotFound) ∧
    (∀ k, k < n_z → 0 < fftfreq n_z (z 1 - z 0) k →
      ∃ c, carrier_bin n_z n_y n_x stack (z 1 - z 0) = some c ∧
        c < n_z ∧ 0 < fftfreq n_z (z 1 - z 0) c ∧
        (∀ j, j < n_z → 0 < fftfreq n_z (z 1 - z 0) j →
          mean_spectrum n_z n_y n_x stack j ≤ mean_spectrum n_z n_y n_x stack c) ∧
        process_fft_carrier n_z n_y n_x stack z =
          Except.ok (fun q => Complex.arg (stack_fft n_z stack c q.1 q.2),
                     fun q => Complex.abs (stack_fft n_z stack c q.1 q.2))) := by
  constructor
  · intro hnone
    have hnil : pos_freq_bins n_z (z 1 - z 0) = [] := by
      unfold pos_freq_bins
      rw [List.filter_eq_nil_iff]
      intro k hk
      simp only [decide_eq_true_eq]
      exact hnone k (List.mem_range.mp hk)
    unfold process_fft_carrier carrier_bin
    rw [hnil]
  · intro k hk hkpos
    have hkmem : k ∈ pos_freq_bins n_z (z 1 - z 0) := by
      unfold pos_freq_bins
      rw [List.mem_filter]
      refine ⟨List.mem_range.mpr hk, ?_⟩
      simp only [decide_eq_true_eq]
      exact hkpos
    cases hl : pos_freq_bins n_z (z 1 - z 0) with
    | nil =>
      rw [hl] at hkmem
      exact absurd hkmem (List.not_mem_nil k)
    | cons a l =>
      have hmem : argmax_fold (mean_spectrum n_z n_y n_x stack) a l ∈
          pos_freq_bins n_z (z 1 - z 0) := by
        rw [hl]
        rcases argmax_fold_mem (mean_spectrum n_z n_y n_x stack) l a with h | h
        · rw [h]
          exact List.mem_cons_self a l
        · exact List.mem_cons_of_mem a h
      have hmem2 := hmem
      unfold pos_freq_bins at hmem2
      rw [List.mem_filter] at hmem2
      refine ⟨argmax_fold (mean_spectrum n_z n_y n_x stack) a l, ?_, ?_, ?_, ?_, ?_⟩
      · unfold carrier_bin
        rw [hl]
      · exact List.mem_range.mp hmem2.1
      · have := hmem2.2
        simp only [decide_eq_true_eq] at this
        exact this
      · intro j hj hjpos
        have hjmem : j ∈ pos_freq_bins n_z (z 1 - z 0) := by
          unfold pos_freq_bins
          rw [List.mem_filter]
          refine ⟨List.mem_range.mpr hj, ?_⟩
          simp only [decide_eq_true_eq]
          exact hjpos
        rw [hl] at hjmem
        rcases List.mem_cons.mp hjmem with rfl | hjl
        · exact (argmax_fold_le (mean_spectrum n_z n_y n_x stack) l j).1
        · exact (argmax_fold_le (mean_spectrum n_z n_y n_x stack) l a).2 j hjl
      · unfold process_fft_carrier carrier_bin
        rw [hl]

/-- Witness for C2: a constant (repeated-position) scan axis has step 0, all
frequency bins resolve to 0, and Mode B fails with CarrierNotFound. -/
theorem c2_witness :
    process_fft_carrier 2 1 1 (fun _ _ _ => 0) (fun _ => 0) =
      Except.error ProcError.carrierNotFound := by
  apply (c2_carrier_mode 2 1 1 (fun _ _ _ => 0) (fun _ => 0)).1
  intro k hk
  unfold fftfreq
  simp
